import Mathlib

/-!
Verification development for the ralph package manager (client + clientlib).

The definitions below are shallow embeddings of the C++ sources:
  * the package resolution query `queryPackage` and the install/remove/check
    pipeline from the client command functions (`Functions.cpp`),
  * the command line parser's `process` overloads and option handling
    (`CommandLineParser.cpp`),
  * promise progress/status/exception delegation (`future/Promise.cpp`),
  * the git repository driver's `pull` composition and the credentials
    callback (`git/GitRepo.cpp`).

Version and requirement algebra, and the package database query helpers, are
not part of the provided sources; those are modelled from the design
document (section 3 "Data model", section 4.5 "Package metadata & version
constraints", section 4.6 "Package database") and are marked as such.
-/

namespace Ralph

/-- Decidable equality for `Except`, used to evaluate the embedded fallible
operations on concrete inputs. -/
instance {ε α : Type} [DecidableEq ε] [DecidableEq α] : DecidableEq (Except ε α) := fun x y =>
  match x, y with
  | .ok a, .ok b =>
    if h : a = b then .isTrue (by rw [h]) else .isFalse (by intro he; cases he; exact h rfl)
  | .ok _, .error _ => .isFalse (by intro h; cases h)
  | .error _, .ok _ => .isFalse (by intro h; cases h)
  | .error e, .error f =>
    if h : e = f then .isTrue (by rw [h]) else .isFalse (by intro he; cases he; exact h rfl)

/-! ## Basic string helpers (kernel-computable stand-ins for QString ops) -/

/-- Split a character list at every occurrence of `c` (like QString::split /
String::splitOn restricted to a single-character separator). -/
def splitOnChar (c : Char) : List Char → List (List Char)
  | [] => [[]]
  | x :: xs =>
    let rest := splitOnChar c xs
    if x == c then [] :: rest
    else
      match rest with
      | [] => [[x]]
      | r :: rs => (x :: r) :: rs

/-- Parse a decimal number from a character list; `none` when empty or when a
non-digit occurs (mirrors QString::toInt failure). -/
def parseNatChars (l : List Char) : Option Nat :=
  if l.isEmpty then none
  else if l.all Char.isDigit then
    some (l.foldl (fun acc c => acc * 10 + (c.toNat - 48)) 0)
  else none

/-! ## Versions and version requirements

Modelled from the spec: "A dotted numeric sequence with an optional trailing
prerelease tag. Total order: component-wise numeric compare; absent
components are zero; a version without a prerelease tag sorts after one with
the same components that has a tag; prerelease tags sort lexicographically."
The `Version` and `VersionRequirement` classes live in clientlib sources that
are not part of the provided files; only their spec is available. -/

structure Version where
  components : List Nat
  prerelease : Option String
deriving DecidableEq

/-- Component-wise numeric comparison; absent components count as zero
(an exhausted left list compares equal to a remainder of zeros). -/
def cmpComponents : List Nat → List Nat → Ordering
  | [], bs => if bs.all (· == 0) then .eq else .lt
  | a :: as, [] => if a == 0 then cmpComponents as [] else .gt
  | a :: as, b :: bs =>
    if a < b then .lt
    else if b < a then .gt
    else cmpComponents as bs

/-- Total order on versions, from the spec's description: numeric components
first; a tagless version sorts after the same components with a tag;
prerelease tags compare lexicographically. -/
def Version.cmp (a b : Version) : Ordering :=
  match cmpComponents a.components b.components with
  | .eq =>
    match a.prerelease, b.prerelease with
    | none, none => .eq
    | none, some _ => .gt
    | some _, none => .lt
    | some x, some y => compare x y
  | o => o

def Version.lt (a b : Version) : Bool := a.cmp b == .lt

def Version.le (a b : Version) : Bool := !(b.cmp a == .lt)

/-- Modelled from the spec: "Split on `.` into numeric components; the last
component may carry a `-tag` suffix. Rejection conditions: empty, non-numeric
components (outside the tag), multiple `-`." -/
def Version.fromString (s : String) : Option Version :=
  let l := s.toList
  if l.isEmpty then none
  else
    let parts := splitOnChar '.' l
    let front := parts.dropLast
    match parts.getLast? with
    | none => none
    | some lastPart =>
      match front.mapM parseNatChars with
      | none => none
      | some nums =>
        match splitOnChar '-' lastPart with
        | [n] =>
          match parseNatChars n with
          | none => none
          | some v => some ⟨nums ++ [v], none⟩
        | [n, tag] =>
          match parseNatChars n with
          | none => none
          | some v => some ⟨nums ++ [v], some (String.mk tag)⟩
        | _ => none

inductive ReqOp
  | eq | ge | gt | le | lt | tilde | caret
deriving DecidableEq

structure ReqClause where
  op : ReqOp
  version : Version
deriving DecidableEq

/-- Modelled from the spec: "A conjunction of bounds ... Empty requirement
matches any version." A requirement is the list of its parsed clauses. -/
structure VersionRequirement where
  clauses : List ReqClause
deriving DecidableEq

/-- Upper bound of a tilde clause: `~x.y` allows `[x.y, x.(y+1))`; absent
components are zero. -/
def tildeUpper (v : Version) : Version :=
  let x := v.components.headD 0
  let y := (v.components.drop 1).headD 0
  ⟨[x, y + 1], none⟩

/-- Upper bound of a caret clause: `^x.y.z` allows `[x.y.z, (x+1).0.0)` when
`x>0`, else `[x.y.z, x.(y+1).0)`. -/
def caretUpper (v : Version) : Version :=
  let x := v.components.headD 0
  let y := (v.components.drop 1).headD 0
  if x > 0 then ⟨[x + 1, 0, 0], none⟩ else ⟨[x, y + 1, 0], none⟩

def ReqClause.satisfies (c : ReqClause) (v : Version) : Bool :=
  match c.op with
  | .eq => v.cmp c.version == .eq
  | .ge => !(v.cmp c.version == .lt)
  | .gt => v.cmp c.version == .gt
  | .le => !(v.cmp c.version == .gt)
  | .lt => v.cmp c.version == .lt
  | .tilde => !(v.cmp c.version == .lt) && (v.cmp (tildeUpper c.version) == .lt)
  | .caret => !(v.cmp c.version == .lt) && (v.cmp (caretUpper c.version) == .lt)

/-- Modelled from the spec: "`req.satisfies(v)` is the AND of all clauses." -/
def VersionRequirement.satisfies (r : VersionRequirement) (v : Version) : Bool :=
  r.clauses.all (fun c => c.satisfies v)

/-- Parse one clause `<op><version>` where `<op>` is one of
`= == >= > <= < ~ ^` or absent (bare version is an exact match). -/
def parseClauseChars (l : List Char) : Option ReqClause :=
  let build (op : ReqOp) (rest : List Char) : Option ReqClause :=
    match Version.fromString (String.mk rest) with
    | none => none
    | some v => some ⟨op, v⟩
  match l with
  | '>' :: '=' :: rest => build .ge rest
  | '<' :: '=' :: rest => build .le rest
  | '=' :: '=' :: rest => build .eq rest
  | '=' :: rest => build .eq rest
  | '>' :: rest => build .gt rest
  | '<' :: rest => build .lt rest
  | '~' :: rest => build .tilde rest
  | '^' :: rest => build .caret rest
  | rest => build .eq rest

/-- Modelled from the spec: "A comma-separated list of clauses, each
`<op><version>` ... or a bare version (treated as `=`)." -/
def VersionRequirement.fromString (s : String) : Option VersionRequirement :=
  match (splitOnChar ',' s.toList).mapM parseClauseChars with
  | none => none
  | some cls => some ⟨cls⟩

/-- The default-constructed requirement `VersionRequirement()`: no clauses,
matches any version. -/
def VersionRequirement.any : VersionRequirement := ⟨[]⟩

/-! ## Packages and the database query

Modelled from the spec: a `Package` is identified by name (case-sensitive),
version and the source identity that produced it; `findPackages(name, req)`
filters by exact name and by requirement satisfaction. The database is
abstracted as the list of all packages visible through its scope chain. -/

structure Package where
  name : String
  version : Version
  sourceId : String
deriving DecidableEq

/-- Modelled from the spec: `findPackages(name, req)` consults the scope
chain and returns the packages whose name matches exactly and whose version
satisfies the requirement. -/
def findPackages (db : List Package) (name : String) (req : VersionRequirement) :
    List Package :=
  db.filter (fun p => p.name == name && req.satisfies p.version)

/-- Insert `x` into an ascending list (helper for `sortBy`). -/
def insertSorted (le : α → α → Bool) (x : α) : List α → List α
  | [] => [x]
  | y :: ys => if le x y then x :: y :: ys else y :: insertSorted le x ys

/-- Insertion sort; deterministic model of `std::sort` with the comparator
`a->version() < b->version()` (ascending by version). -/
def sortBy (le : α → α → Bool) : List α → List α
  | [] => []
  | x :: xs => insertSorted le x (sortBy le xs)

/-! ## The client resolution query (`queryPackage` in `Functions.cpp`) -/

/-- Errors thrown by `queryPackage`: the two `throw Exception(...)` sites
(`"No package found for %1, but other versions are available"` and
`"No package found for %1"`, both formatted with the full query string), plus
the requirement parse failure escaping from `VersionRequirement::fromString`. -/
inductive QueryError
  | noMatchingVersion (query : String)
  | unknownPackage (query : String)
  | badRequirement (query : String)
deriving DecidableEq

/-- Split of the query at the first `'@'`: `query.indexOf('@')` followed by
`query.mid(0, splitIndex)` (the whole string when there is no `'@'`) and
`query.mid(splitIndex + 1)`. -/
def parseQuery (query : String) : String × Option String :=
  match query.toList.findIdx? (· == '@') with
  | none => (query, none)
  | some i => (String.mk (query.toList.take i), some (String.mk (query.toList.drop (i + 1))))

/-- The name part of a query (`query.mid(0, splitIndex)`). -/
def queryName (query : String) : String := (parseQuery query).1

/-- The requirement of a query: default `VersionRequirement()` when there is
no `'@'`, otherwise `VersionRequirement::fromString` on the rest. -/
def queryRequirement (query : String) : Option VersionRequirement :=
  match (parseQuery query).2 with
  | none => some VersionRequirement.any
  | some s => VersionRequirement.fromString s

/-- Embedding of `queryPackage` (`Functions.cpp`, anonymous namespace):
split the query at `'@'`, look up candidates, sort them ascending by
version, and return `candidates.first()`; when empty, distinguish the
other-versions-available and unknown-name errors. -/
def queryPackage (db : List Package) (query : String) : Except QueryError Package :=
  match queryRequirement query with
  | none => .error (.badRequirement query)
  | some req =>
    let candidates := sortBy (fun a b => Version.le a.version b.version)
      (findPackages db (queryName query) req)
    match candidates with
    | [] =>
      let haveOtherVersions := !(findPackages db (queryName query) VersionRequirement.any).isEmpty
      if haveOtherVersions then .error (.noMatchingVersion query)
      else .error (.unknownPackage query)
    | c :: _ => .ok c

/-! ## The install/remove/check pipeline (`State::installPackage`)

The command body is
`collection(result.argumentMulti("packages")).map(queryPackage).each(install)`:
`map` resolves every query in input order and `each` then awaits
`db->group(group).install(pkg, config)` for each resolved package. Neither
combinator catches exceptions, so the first failure propagates out of the
pipeline; the effects of the install step are modelled by returning the
resolved packages. -/

def resolvePackages (db : List Package) : List String → Except QueryError (List Package)
  | [] => .ok []
  | q :: qs =>
    match queryPackage db q with
    | .error e => .error e
    | .ok p =>
      match resolvePackages db qs with
      | .error e => .error e
      | .ok ps => .ok (p :: ps)

/-- Embedding of the `install <packages...>` pipeline over a database: the
resolution map runs first; on success every resolved package is installed. -/
def installPackage (db : List Package) (queries : List String) :
    Except QueryError (List Package) :=
  resolvePackages db queries

/-- The queries whose resolution the pipeline attempts: processing stops at
the first query whose resolution throws. -/
def attemptedQueries (db : List Package) : List String → List String
  | [] => []
  | q :: qs =>
    match queryPackage db q with
    | .ok _ => q :: attemptedQueries db qs
    | .error _ => [q]

/-! ## Example database fixtures -/

def foo10 : Package := ⟨"foo", ⟨[1, 0], none⟩, "src"⟩
def foo12 : Package := ⟨"foo", ⟨[1, 2], none⟩, "src"⟩
def foo20 : Package := ⟨"foo", ⟨[2, 0], none⟩, "src"⟩

/-- A database holding only `foo@1.0`. -/
def exampleDb1 : List Package := [foo10]

/-- A database holding `foo@1.0`, `foo@1.2` and `foo@2.0` (the spec's own
resolution example). -/
def exampleDb3 : List Package := [foo10, foo12, foo20]

/-! ## Claim theorems: resolution query -/

/-- Claim C1 (code bug): resolving `foo@>=1.0` against a database containing
`foo@1.0`, `foo@1.2` and `foo@2.0` returns `foo@1.0`, the lowest satisfying
version — `queryPackage` sorts the candidates ascending by version and
returns `candidates.first()` — although `foo@2.0` is also a satisfying
candidate with a higher version, so the resolution query does not return the
highest-version candidate. -/
theorem queryPackage_returns_lowest_not_highest :
    queryPackage exampleDb3 "foo@>=1.0" = .ok foo10 ∧
    queryRequirement "foo@>=1.0" = some ⟨[⟨.ge, ⟨[1, 0], none⟩⟩]⟩ ∧
    foo20 ∈ findPackages exampleDb3 "foo" ⟨[⟨.ge, ⟨[1, 0], none⟩⟩]⟩ ∧
    Version.lt foo10.version foo20.version = true := by decide

/-- Claim C2: when no package satisfies the requirement of a query, the
resolution query fails: with the no-matching-version error (carrying the
query) when packages with that name exist at other versions, and with the
unknown-package error when the name is unknown. -/
theorem queryPackage_failure_modes (db : List Package) (query : String)
    (req : VersionRequirement) (hreq : queryRequirement query = some req)
    (hnone : findPackages db (queryName query) req = []) :
    queryPackage db query =
      .error (if (findPackages db (queryName query) VersionRequirement.any).isEmpty
              then QueryError.unknownPackage query
              else QueryError.noMatchingVersion query) := by
  unfold queryPackage
  rw [hreq]
  dsimp only
  rw [hnone]
  cases h : (findPackages db (queryName query) VersionRequirement.any).isEmpty <;>
    simp [sortBy, h]

/-- Witness for `queryPackage_failure_modes`: `foo@>=2.0` against a database
holding only `foo@1.0`. -/
theorem queryPackage_failure_modes_witness :
    queryPackage exampleDb1 "foo@>=2.0" =
      .error (if (findPackages exampleDb1 (queryName "foo@>=2.0") VersionRequirement.any).isEmpty
              then QueryError.unknownPackage "foo@>=2.0"
              else QueryError.noMatchingVersion "foo@>=2.0") :=
  queryPackage_failure_modes exampleDb1 "foo@>=2.0" ⟨[⟨.ge, ⟨[2, 0], none⟩⟩]⟩
    (by decide) (by decide)

/-! ## Claim theorems: install pipeline error handling -/

/-- Claim C3, counterexample: against a database holding only `foo@1.0`, the
invocation `install bar foo` fails while resolving `bar` and never processes
`foo` — even though `foo` alone would resolve fine — instead of collecting
per-package failures and continuing with the remaining packages. -/
theorem installPackage_aborts_on_first_failure :
    installPackage exampleDb1 ["bar", "foo"] = .error (.unknownPackage "bar") ∧
    attemptedQueries exampleDb1 ["bar", "foo"] = ["bar"] ∧
    queryPackage exampleDb1 "foo" = .ok foo10 := by decide

/-- Claim C3, amended: when resolving one package fails, the pipeline stops
at that package: the queries before it all resolved successfully, the
remaining queries are never attempted, and the failure propagates as the
result of the whole invocation. -/
theorem installPackage_stops_at_first_failure (db : List Package)
    (queries : List String) (e : QueryError)
    (h : installPackage db queries = .error e) :
    ∃ pre q post, queries = pre ++ q :: post ∧
      queryPackage db q = .error e ∧
      (∀ q' ∈ pre, ∃ p, queryPackage db q' = .ok p) ∧
      attemptedQueries db queries = pre ++ [q] := by
  induction queries with
  | nil => simp [installPackage, resolvePackages] at h
  | cons q qs ih =>
    unfold installPackage resolvePackages at h
    cases hq : queryPackage db q with
    | error e' =>
      rw [hq] at h
      cases h
      exact ⟨[], q, qs, rfl, hq, by simp, by simp [attemptedQueries, hq]⟩
    | ok p =>
      rw [hq] at h
      cases hrest : resolvePackages db qs with
      | error e2 =>
        rw [hrest] at h
        cases h
        obtain ⟨pre, q', post, hsplit, herr, hpre, hatt⟩ := ih hrest
        refine ⟨q :: pre, q', post, by simp [hsplit], herr, ?_, ?_⟩
        · intro x hx
          rcases List.mem_cons.mp hx with hxq | hxpre
          · exact ⟨p, hxq ▸ hq⟩
          · exact hpre x hxpre
        · simp [attemptedQueries, hq, hatt]
      | ok ps =>
        rw [hrest] at h
        cases h

/-- Witness for `installPackage_stops_at_first_failure` at the concrete
two-query invocation `install bar foo` over the `foo@1.0` database. -/
theorem installPackage_stops_at_first_failure_witness :
    ∃ pre q post, (["bar", "foo"] : List String) = pre ++ q :: post ∧
      queryPackage exampleDb1 q = .error (.unknownPackage "bar") ∧
      (∀ q' ∈ pre, ∃ p, queryPackage exampleDb1 q' = .ok p) ∧
      attemptedQueries exampleDb1 ["bar", "foo"] = pre ++ [q] :=
  installPackage_stops_at_first_failure exampleDb1 ["bar", "foo"]
    (.unknownPackage "bar") (by decide)

/-! ## The command line parser (`CommandLineParser.cpp`) -/

namespace CommandLine

/-- Outcome of `parse(arguments)` followed by `handle(result)` inside
`Parser::process(const QStringList &)`: either both succeed — with the flag
telling whether the invocation was empty (no options, no arguments, a
command chain of size one), in which case help is printed — or one of the
three exception classes escapes. -/
inductive HandleOutcome
  | ok (emptyInvocation : Bool)
  | buildError
  | commandLineError
  | otherError
deriving DecidableEq

/-- How `Parser::process` terminates: a `return code;` statement, or process
termination via `std::exit(code)` inside `printHelp`. -/
inductive ProcessResult
  | returned (code : Int)
  | exited (code : Int)
deriving DecidableEq

/-- Embedding of the try/catch dispatch of
`Parser::process(const QStringList &)`: success returns 0 — after printing
help, which calls `std::exit(0)`, when the invocation is empty; a
`BuildException` returns -1; a `CommandLineException` prints the message and
then help, and `printHelp` terminates the process with exit code 0; any
other `Exception` returns -1. -/
def Parser.process : HandleOutcome → ProcessResult
  | .ok emptyInvocation => if emptyInvocation then .exited 0 else .returned 0
  | .buildError => .returned (-1)
  | .commandLineError => .exited 0
  | .otherError => .returned (-1)

/-- Embedding of the list-building loop of
`Parser::process(int argc, char **argv)`:
`for (int i = 0; i < argc; ++i) list.append(QString::fromLocal8Bit(argv[0]));`
reads index 0 on every iteration; the built list is then handed to the
string-list overload. -/
def Parser.processArgvList (argc : Nat) (argv : Nat → String) : List String :=
  (List.range argc).map (fun _ => argv 0)

/-- The `Option` class of the command line parser, as consumed by
`Parser::parse`: alias names (the first one is canonical), the argument
flags, the default and allowed values, and the early-exit flag. -/
structure COption where
  names : List String
  description : String
  hasArgument : Bool
  argumentRequired : Bool
  defaultValue : Option String
  allowedValues : List String
  isEarlyExit : Bool
deriving DecidableEq

/-- Insert into a `QHash<QString, QString>` model: a later insert for the
same key overwrites the earlier one. -/
def insertValue (m : List (String × String)) (k v : String) : List (String × String) :=
  (k, v) :: m.filter (fun p => p.1 != k)

/-- `QHash::value`: the value stored under `k`, when any. -/
def lookupValue (m : List (String × String)) (k : String) : Option String :=
  (m.find? (fun p => p.1 == k)).map (fun p => p.2)

/-- `QHash::contains`. -/
def containsKey (m : List (String × String)) (k : String) : Bool :=
  (m.find? (fun p => p.1 == k)).isSome

/-- `QString::startsWith('-')` on the lookahead token. -/
def startsWithDash (s : String) : Bool :=
  match s.toList with
  | [] => false
  | c :: _ => c == '-'

/-- The command line exceptions thrown by the `handleOption` lambda. -/
inductive ParseError
  | unknownOption (name : String)
  | unexpectedArgument (name : String)
  | missingRequiredArgument (name : String)
deriving DecidableEq

/-- Embedding of the `handleOption` lambda in `Parser::parse`. `options` is
the alias registry (`QHash<QString, Option>`, every alias name mapping to
its option); `it` models the remaining tokens of the iterator when one is
passed (`nullptr` is `none`). Every successful branch stores the value under
`option.names().first()`. -/
def handleOption (options : String → Option COption)
    (resultOptions : List (String × String)) (name value : String)
    (hasValue : Bool) (it : Option (List String)) :
    Except ParseError (List (String × String) × Option (List String)) :=
  match options name with
  | none => .error (.unknownOption name)
  | some option =>
    if hasValue && !option.hasArgument then
      .error (.unexpectedArgument name)
    else if !hasValue && option.hasArgument && option.argumentRequired then
      match it with
      | some (next :: rest) =>
        if !(startsWithDash next) then
          .ok (insertValue resultOptions (option.names.headD "") next, some rest)
        else .error (.missingRequiredArgument name)
      | _ => .error (.missingRequiredArgument name)
    else
      .ok (insertValue resultOptions (option.names.headD "") value, it)

/-- Embedding of the default-value loop at the end of `Parser::parse`: for
every registered option (the registry holds one entry per alias, so an
option recurs once per alias name), an option that is not yet present, takes
an argument and has a non-null default is stored under `names().first()`. -/
def fillDefaults (registryValues : List COption)
    (resultOptions : List (String × String)) : List (String × String) :=
  registryValues.foldl
    (fun r opt =>
      if !(containsKey r (opt.names.headD "")) && opt.hasArgument &&
          opt.defaultValue.isSome then
        insertValue r (opt.names.headD "") (opt.defaultValue.getD "")
      else r)
    resultOptions

/-! ## Claim theorems: exit codes -/

/-- Claim C4, counterexample: an ordinary exception escaping `handle` — a
resolve, network or authentication failure surfaced as a plain `Exception` —
makes `Parser::process` return -1, not the exit code 1 the claim reserves
for user-facing failures. -/
theorem process_returns_minus_one_for_ordinary_exception :
    Parser.process .otherError = .returned (-1) ∧ ((-1 : Int) ≠ 1) := by decide

/-- Claim C4, amended: `Parser::process` returns 0 on success (terminating
the process with exit code 0 via the help printer when the invocation is
empty), returns -1 both for internal build errors and for ordinary
exceptions such as resolve/network/auth failures, and terminates the process
with exit code 0 after printing help for command line syntax errors; no path
produces the exit code 1. -/
theorem process_exit_codes :
    Parser.process (.ok false) = .returned 0 ∧
    Parser.process (.ok true) = .exited 0 ∧
    Parser.process .buildError = .returned (-1) ∧
    Parser.process .commandLineError = .exited 0 ∧
    Parser.process .otherError = .returned (-1) ∧
    (∀ o, Parser.process o ≠ .returned 1 ∧ Parser.process o ≠ .exited 1) := by
  refine ⟨rfl, rfl, rfl, rfl, rfl, ?_⟩
  intro o
  cases o with
  | ok e => cases e <;> exact ⟨by decide, by decide⟩
  | buildError => exact ⟨by decide, by decide⟩
  | commandLineError => exact ⟨by decide, by decide⟩
  | otherError => exact ⟨by decide, by decide⟩

/-- Claim C9: the argc/argv overload of `Parser::process` builds the list it
parses out of `argc` copies of `argv[0]`; the real command line arguments
`argv[1..argc-1]` never reach the string-list overload. -/
theorem processArgvList_replicates_argv0 :
    ∀ (argc : Nat) (argv : Nat → String),
      Parser.processArgvList argc argv = List.replicate argc (argv 0) ∧
      ∀ s ∈ Parser.processArgvList argc argv, s = argv 0 := by
  intro argc argv
  constructor
  · induction argc with
    | zero => rfl
    | succ n ih =>
      simp only [Parser.processArgvList, List.range_succ, List.map_append] at ih ⊢
      simp [ih, List.replicate_succ']
  · intro s hs
    simp only [Parser.processArgvList, List.mem_map] at hs
    obtain ⟨i, _, rfl⟩ := hs
    rfl

/-! ## Claim theorems: canonical option keys -/

/-- Looking up the key just inserted yields the inserted value. -/
theorem lookupValue_insertValue (m : List (String × String)) (k v : String) :
    lookupValue (insertValue m k v) k = some v := by
  simp [lookupValue, insertValue, List.find?_cons]

/-- A key present after an insert was present before or is the inserted key. -/
theorem containsKey_insertValue (m : List (String × String)) (k k' v : String) :
    containsKey (insertValue m k' v) k = true → containsKey m k = true ∨ k = k' := by
  intro h
  by_cases hk : k = k'
  · exact .inr hk
  · left
    simp only [containsKey, insertValue, List.find?_isSome] at h ⊢
    obtain ⟨x, hx, hpx⟩ := h
    rcases List.mem_cons.mp hx with rfl | hxm
    · simp only [beq_iff_eq] at hpx
      exact absurd hpx.symm hk
    · exact ⟨x, (List.mem_filter.mp hxm).1, hpx⟩

/-- One step of the default-fill fold only ever adds an option's canonical
first name. -/
theorem fillDefaults_step_keys (r : List (String × String)) (opt : COption)
    (k : String)
    (h : containsKey
        (if !(containsKey r (opt.names.headD "")) && opt.hasArgument &&
            opt.defaultValue.isSome then
          insertValue r (opt.names.headD "") (opt.defaultValue.getD "")
        else r) k = true) :
    containsKey r k = true ∨ k = opt.names.headD "" := by
  by_cases hc : (!(containsKey r (opt.names.headD "")) && opt.hasArgument &&
      opt.defaultValue.isSome) = true
  · rw [if_pos hc] at h
    exact containsKey_insertValue r k (opt.names.headD "") (opt.defaultValue.getD "") h
  · rw [if_neg hc] at h
    exact .inl h

/-- Claim C10: every value stored by option handling is keyed by the
option's first declared name. A successful `handleOption` under any alias
`name` of `opt` inserts the value under `opt.names().first()` and a lookup
by that canonical name sees it; the default-fill loop likewise only adds
keys that are some registered option's first name. -/
theorem option_values_canonical_key :
    (∀ (options : String → Option COption) (res : List (String × String))
        (name value : String) (hasValue : Bool) (it : Option (List String))
        (res' : List (String × String)) (it' : Option (List String)) (opt : COption),
      options name = some opt →
      handleOption options res name value hasValue it = .ok (res', it') →
      ∃ v, res' = insertValue res (opt.names.headD "") v ∧
        lookupValue res' (opt.names.headD "") = some v) ∧
    (∀ (opts : List COption) (res : List (String × String)) (k : String),
      containsKey (fillDefaults opts res) k = true →
      containsKey res k = true ∨ ∃ opt ∈ opts, k = opt.names.headD "") := by
  constructor
  · intro options res name value hasValue it res' it' opt hopt h
    unfold handleOption at h
    rw [hopt] at h
    dsimp only at h
    by_cases h1 : (hasValue && !opt.hasArgument) = true
    · rw [if_pos h1] at h
      exact Except.noConfusion h
    · rw [if_neg h1] at h
      by_cases h2 : (!hasValue && opt.hasArgument && opt.argumentRequired) = true
      · rw [if_pos h2] at h
        match it, h with
        | some (next :: rest), h =>
          dsimp only at h
          by_cases h3 : (!(startsWithDash next)) = true
          · rw [if_pos h3] at h
            simp only [Except.ok.injEq, Prod.mk.injEq] at h
            exact ⟨next, h.1.symm, h.1 ▸ lookupValue_insertValue res _ next⟩
          · rw [if_neg h3] at h
            exact Except.noConfusion h
        | some [], h => exact Except.noConfusion h
        | none, h => exact Except.noConfusion h
      · rw [if_neg h2] at h
        simp only [Except.ok.injEq, Prod.mk.injEq] at h
        exact ⟨value, h.1.symm, h.1 ▸ lookupValue_insertValue res _ value⟩
  · intro opts
    induction opts with
    | nil => intro res k h; exact .inl h
    | cons opt rest ih =>
      intro res k h
      have hfold : fillDefaults (opt :: rest) res =
          fillDefaults rest
            (if !(containsKey res (opt.names.headD "")) && opt.hasArgument &&
                opt.defaultValue.isSome then
              insertValue res (opt.names.headD "") (opt.defaultValue.getD "")
            else res) := rfl
      rw [hfold] at h
      rcases ih _ k h with hstep | ⟨o, ho, hk⟩
      · rcases fillDefaults_step_keys res opt k hstep with hr | hcanon
        · exact .inl hr
        · exact .inr ⟨opt, List.mem_cons_self opt rest, hcanon⟩
      · exact .inr ⟨o, List.mem_cons_of_mem opt ho, hk⟩

/-- An option with canonical name `name` and alias `n`, taking a required
argument. -/
def exampleNameOption : COption :=
  ⟨["name", "n"], "a name", true, true, none, [], false⟩

/-- The registry holding `exampleNameOption` under both of its aliases. -/
def exampleRegistry : String → Option COption :=
  fun n => if n == "name" || n == "n" then some exampleNameOption else none

/-- The `--database` option with a default value, as registered by the
sources commands. -/
def exampleDatabaseOption : COption :=
  ⟨["database", "d"], "the database scope", true, true, some "project",
   ["project", "user", "system"], false⟩

/-- Witness for `option_values_canonical_key`: typing the alias `-n=val`
stores the value under the canonical key `"name"`, and the default fill of
`--database` only adds the canonical key `"database"`. -/
theorem option_values_canonical_key_witness :
    (∃ v, insertValue [] "name" "val" = insertValue [] "name" v ∧
      lookupValue (insertValue [] "name" "val") "name" = some v) ∧
    (containsKey [] "database" = true ∨
      ∃ opt ∈ [exampleDatabaseOption], "database" = opt.names.headD "") :=
  ⟨option_values_canonical_key.1 exampleRegistry [] "n" "val" true none
      (insertValue [] "name" "val") none exampleNameOption (by decide) (by decide),
   option_values_canonical_key.2 [exampleDatabaseOption] [] "database" (by decide)⟩

end CommandLine

/-! ## Promises and progress delegation (`future/Promise.cpp`) -/

namespace ClientLib

/-- The watcher notifications a promise can emit
(`BaseFutureWatcher::started/finished/canceled/progress/status/exception`).
The exception payload abstracts the `std::exception_ptr`. -/
inductive PromiseEvent
  | started
  | finished
  | canceled
  | progress (current total : Nat)
  | statusMsg (message : String)
  | excepted (e : String)
deriving DecidableEq

/-- Whether a report of this event is forwarded to `delegateTo`: only
`reportProgress`, `reportStatus` and `reportException` end with
`if (d->delegateTo) { d->delegateTo->report...(...); }`. -/
def PromiseEvent.delegated : PromiseEvent → Bool
  | .progress _ _ => true
  | .statusMsg _ => true
  | .excepted _ => true
  | _ => false

inductive FutureState
  | running
  | finished
  | canceled
  | exceptionState
deriving DecidableEq

/-- The shared `BaseFutureData` of a promise, together with the ordered list
of notifications already emitted to its watchers. -/
structure BasePromise where
  state : FutureState
  progressCurrent : Nat
  progressTotal : Nat
  statusText : String
  storedException : Option String
  log : List PromiseEvent
deriving DecidableEq

/-- Effect of one `report...` call on the promise's own data and watchers:
`reportProgress` stores the counters, `reportStatus` the message,
`reportException` the exception and the `Exception` state, `reportFinished`/
`reportCanceled` the terminal state; each then notifies every watcher, in
order, which the log records. -/
def reportOne (ev : PromiseEvent) (p : BasePromise) : BasePromise :=
  match ev with
  | .progress c t => { p with progressCurrent := c, progressTotal := t, log := p.log ++ [ev] }
  | .statusMsg m => { p with statusText := m, log := p.log ++ [ev] }
  | .excepted e => { p with storedException := some e, state := .exceptionState, log := p.log ++ [ev] }
  | .finished => { p with state := .finished, log := p.log ++ [ev] }
  | .canceled => { p with state := .canceled, log := p.log ++ [ev] }
  | .started => { p with log := p.log ++ [ev] }

/-- A delegation chain: the head promise delegates to the next one, and so
on (`d->delegateTo`). Reporting an event applies it to the head and, for the
delegated kinds, recursively to the rest of the chain with the same
arguments. -/
def report (ev : PromiseEvent) : List BasePromise → List BasePromise
  | [] => []
  | p :: rest => reportOne ev p :: (if ev.delegated then report ev rest else rest)

/-- A sequence of reports issued on the innermost promise of the chain. -/
def reportAll (evs : List PromiseEvent) (chain : List BasePromise) : List BasePromise :=
  evs.foldl (fun ch ev => report ev ch) chain

theorem reportOne_log (ev : PromiseEvent) (p : BasePromise) :
    (reportOne ev p).log = p.log ++ [ev] := by
  cases ev <;> rfl

theorem report_log_append (ev : PromiseEvent) (hev : ev.delegated = true) :
    ∀ (suffix : List PromiseEvent) (chain : List BasePromise),
      (report ev chain).map (fun p => p.log ++ suffix) =
        chain.map (fun p => p.log ++ ev :: suffix) := by
  intro suffix chain
  induction chain with
  | nil => rfl
  | cons p rest ih =>
    simp only [report, hev, if_pos, List.map_cons, reportOne_log, List.append_assoc,
      List.singleton_append, List.cons.injEq]
    exact ⟨trivial, ih⟩

/-- Claim C5: every delegated report issued on the inner promise of a
delegation chain — each progress pair, each status message, each exception —
is emitted, with the same values and in the same order, on every promise the
chain delegates to, the outer promise included. -/
theorem delegation_mirrors_reports (chain : List BasePromise)
    (evs : List PromiseEvent) (hdel : ∀ ev ∈ evs, ev.delegated = true) :
    (reportAll evs chain).map (fun p => p.log) =
      chain.map (fun p => p.log ++ evs) := by
  induction evs generalizing chain with
  | nil => simp [reportAll]
  | cons ev evs ih =>
    have hev : ev.delegated = true := hdel ev (List.mem_cons_self ev evs)
    have hrest : ∀ e ∈ evs, e.delegated = true :=
      fun e he => hdel e (List.mem_cons_of_mem ev he)
    have hstep : reportAll (ev :: evs) chain = reportAll evs (report ev chain) := rfl
    rw [hstep, ih (report ev chain) hrest, report_log_append ev hev evs chain]

/-- A two-promise chain: an inner task promise delegating to an outer one. -/
def examplePromise : BasePromise := ⟨.running, 0, 0, "", none, []⟩

def exampleReports : List PromiseEvent :=
  [.progress 1 10, .statusMsg "Fetching...", .progress 10 10, .excepted "GitFailure"]

/-- Witness for `delegation_mirrors_reports`: a fetch-like report sequence on
an inner promise delegating to one outer promise. -/
theorem delegation_mirrors_reports_witness :
    (reportAll exampleReports [examplePromise, examplePromise]).map (fun p => p.log) =
      [examplePromise, examplePromise].map (fun p => p.log ++ exampleReports) :=
  delegation_mirrors_reports [examplePromise, examplePromise] exampleReports (by decide)

/-! ## The git driver (`git/GitRepo.cpp`) -/

namespace Git

/-- The observable run of one asynchronous git task: the ordered
progress/status events it reports through its notifier, and its result
(`none` is success, `some m` a thrown `GitException`/`Exception` message). -/
structure TaskRun where
  events : List PromiseEvent
  result : Option String
deriving DecidableEq

/-- The behavior of the external libgit2 calls backing `fetch()` and
`checkout(ref)`: what each subtask reports and whether it fails. The network
and the repository contents are outside the program, so they enter the model
as this environment. -/
structure GitEnv where
  fetchRun : TaskRun
  checkoutRun : String → TaskRun

def GitRepo.fetch (env : GitEnv) : TaskRun := env.fetchRun

def GitRepo.checkout (env : GitEnv) (id : String) : TaskRun := env.checkoutRun id

/-- `Notifier::await` on a subordinate future: when the surrounding task has
already failed the statement is never reached; otherwise the subordinate
runs with its progress/status delegated to the outer task's stream, and its
failure rethrows into the outer task. -/
def awaitTask (outer : TaskRun) (sub : TaskRun) : TaskRun :=
  match outer.result with
  | some _ => outer
  | none => { events := outer.events ++ sub.events, result := sub.result }

/-- Embedding of `GitRepo::pull`: an async task whose body is
`notifier.await(fetch()); notifier.await(checkout(id));`. -/
def GitRepo.pull (env : GitEnv) (id : String) : TaskRun :=
  awaitTask (awaitTask ⟨[], none⟩ (GitRepo.fetch env)) (GitRepo.checkout env id)

/-- Follows the spec's words: "`pull(ref)` – `fetch()` then `checkout(ref)`,
delegated as one progress stream": the pull stream is fetch's events, then —
when fetch succeeded — checkout's events, failing as soon as either subtask
fails. -/
def pullSpec (env : GitEnv) (id : String) : TaskRun :=
  match (GitRepo.fetch env).result with
  | some e => { events := (GitRepo.fetch env).events, result := some e }
  | none => { events := (GitRepo.fetch env).events ++ (GitRepo.checkout env id).events,
              result := (GitRepo.checkout env id).result }

/-- Claim C6: for every environment and ref, the task produced by
`pull(ref)` equals awaiting `fetch()` and then awaiting `checkout(ref)` in
that order, both subtasks' progress delegated into the single outer stream. -/
theorem pull_refines_fetch_then_checkout (env : GitEnv) (id : String) :
    GitRepo.pull env id = pullSpec env id := by
  unfold GitRepo.pull pullSpec awaitTask GitRepo.fetch GitRepo.checkout
  cases h : env.fetchRun.result <;> simp [h]

/-! ### Credential negotiation -/

/-- Credential material (`git_cred`) produced by the
`GitCredentialResponse::createFor...` constructors. -/
inductive GitCred
  | defaultCred
  | username (name : String)
  | userpass (name password : String)
  | sshKey (name pubkeyPath privkeyPath passphrase : String)
deriving DecidableEq

/-- Embedding of `GitCredentialResponse`: the stored `git_cred *` (null when
absent) and the error flag distinguishing `createInvalid` (null credential,
not an error) from `createError`. -/
structure GitCredentialResponse where
  result : Option GitCred
  isErrorResponse : Bool
deriving DecidableEq

def GitCredentialResponse.createInvalid : GitCredentialResponse := ⟨none, false⟩

def GitCredentialResponse.createError : GitCredentialResponse := ⟨none, true⟩

/-- The `createForUsername`/`createForUsernamePassword`/`createForSSHKey`/
`createForDefault` constructors: they wrap the credential allocated by the
corresponding `git_cred_*_new` call, degrading to `createError` when the
allocation fails (the `alloc` argument models that external outcome). -/
def GitCredentialResponse.createFor (alloc : Option GitCred) : GitCredentialResponse :=
  match alloc with
  | none => GitCredentialResponse.createError
  | some cred => ⟨some cred, false⟩

/-- The libgit2 `GIT_EUSER` code returned to abort an attempt. -/
def GIT_EUSER : Int := -7

/-- Embedding of the tail of `GitRepo::credentialsCallback`: the broker's
response is propagated as the pair (credential written to `*out`, return
code): no material and the error flag → `GIT_EUSER`; no material without the
error flag → 1; material present → `*out` receives it and 0 is returned. -/
def credentialsCallback (response : GitCredentialResponse) : Option GitCred × Int :=
  match response.result with
  | none => (none, if response.isErrorResponse then GIT_EUSER else 1)
  | some cred => (some cred, 0)

/-- Claim C7: the broker's answer is propagated in exactly one of three
ways: a valid response supplies the credential material and returns 0 (the
attempt proceeds); an invalid response returns the positive code 1 (the
caller tries another type); an error response returns the negative
user-error code `GIT_EUSER` (the attempt aborts with an authentication
failure). -/
theorem credentialsCallback_trichotomy :
    (∀ cred, credentialsCallback (GitCredentialResponse.createFor (some cred)) =
      (some cred, 0)) ∧
    (credentialsCallback GitCredentialResponse.createInvalid = (none, 1) ∧ (0 : Int) < 1) ∧
    (credentialsCallback GitCredentialResponse.createError = (none, GIT_EUSER) ∧
      GIT_EUSER < 0) :=
  ⟨fun _ => rfl, ⟨rfl, by decide⟩, ⟨rfl, by decide⟩⟩

end Git

end ClientLib

/-! ## Listing sources across scopes (`State::listSources`) -/

/-- The failure thrown when the forced database cannot be created
(`"Database does not exists and unable to create it"`). -/
inductive ClientError
  | databaseUnavailable
deriving DecidableEq

/-- Embedding of the `output` lambda in `State::listSources`: `avail` is
whether `createDatabase(databaseType)` yields a database. A missing database
throws when `force` is set and contributes nothing otherwise; an available
database contributes its section (represented by its scope label) to the
listing. -/
def outputSources (avail : String → Bool) (databaseType : String) (force : Bool) :
    Except ClientError (List String) :=
  if avail databaseType then .ok [databaseType]
  else if force then .error .databaseUnavailable
  else .ok []

/-- Embedding of `State::listSources`: the selected scope is printed first
(forced); scope `project` additionally lists `user` and then `system`; scope
`user` additionally lists `system`. -/
def listSources (avail : String → Bool) (scope : String) :
    Except ClientError (List String) := do
  let first ← outputSources avail scope true
  let projectExtra ←
    if scope == "project" then do
      let u ← outputSources avail "user" false
      let s ← outputSources avail "system" false
      pure (u ++ s)
    else pure []
  let userExtra ←
    if scope == "user" then outputSources avail "system" false
    else pure ([] : List String)
  pure (first ++ projectExtra ++ userExtra)

/-- Claim C8: with every scope's database available, listing sources for
scope `project` lists the project, user and system databases, scope `user`
lists the user and system databases, and scope `system` lists only the
system database. -/
theorem listSources_scopes (avail : String → Bool)
    (hp : avail "project" = true) (hu : avail "user" = true)
    (hs : avail "system" = true) :
    listSources avail "project" = .ok ["project", "user", "system"] ∧
    listSources avail "user" = .ok ["user", "system"] ∧
    listSources avail "system" = .ok ["system"] := by
  refine ⟨?_, ?_, ?_⟩ <;>
    simp [listSources, outputSources, hp, hu, hs, Except.bind] <;> rfl

/-- Witness for `listSources_scopes`: all three databases available. -/
theorem listSources_scopes_witness :
    listSources (fun _ => true) "project" = .ok ["project", "user", "system"] ∧
    listSources (fun _ => true) "user" = .ok ["user", "system"] ∧
    listSources (fun _ => true) "system" = .ok ["system"] :=
  listSources_scopes (fun _ => true) rfl rfl rfl

end Ralph
